import Mathlib

/-!
# VFD SWMR coordination core — shallow embedding and verification

This file embeds, in Lean 4, the VFD SWMR (single-writer / multiple-reader)
coordination core of the HDF5 library as found in `src/H5Fvfd_swmr.c` and
`src/H5MFfreedspace.c`, and proves (or refutes) the specification claims
about it.

Conventions of the embedding:
* C `uint64_t`/`uint32_t`/`haddr_t` values become `Nat`; where the on-disk
  encoding truncates a value, the truncation is explicit (`% 2 ^ 32` etc.).
* Doubly-linked lists (the delayed list, the EOT queue) become Lean `List`s,
  head first (list head = `head_ptr` of the C list).
* In-memory page images (`entry_ptr`) become `Option (List Nat)`: `none` is
  the null pointer, `some bytes` is a non-null image.
* File I/O becomes an explicit event trace; the external collaborators
  (shadow free-space manager `H5MV_alloc`, metadata checksum
  `H5_checksum_metadata`) that live outside this repository are passed as
  function parameters.
* Fallible routines return `Except`.
-/

namespace VfdSwmr

/-! ## Data model: index entries and delayed-list entries

From `H5FD_vfd_swmr_idx_entry_t` as used by `src/H5Fvfd_swmr.c`
(fields initialized in `H5F__vfd_swmr_writer__create_index`). -/

/-- One entry of the metadata-file index (`H5FD_vfd_swmr_idx_entry_t`). -/
structure IdxEntry where
  hdf5_page_offset : Nat
  md_file_page_offset : Nat
  length : Nat
  chksum : Nat
  entry_ptr : Option (List Nat)
  tick_of_last_change : Nat
  clean : Bool
  tick_of_last_flush : Nat
  delayed_flush : Nat
  moved_to_hdf5_file : Bool
deriving Repr, DecidableEq

/-- One entry of the delayed list (`H5F_vfd_swmr_dl_entry_t`), as filled in
by `H5F_update_vfd_swmr_metadata_file`. -/
structure DlEntry where
  hdf5_page_offset : Nat
  md_file_page_offset : Nat
  length : Nat
  tick_num : Nat
deriving Repr, DecidableEq

/-! ## Shadow-file codec (`H5F__vfd_swmr_construct_write_md_hdr` /
`H5F__vfd_swmr_construct_write_md_idx`) -/

/-- Little-endian encoding of `x` on `w` bytes (the `UINT32ENCODE` /
`UINT64ENCODE` macros write the low byte first). -/
def leEnc : Nat → Nat → List Nat
  | 0, _ => []
  | w + 1, x => x % 256 :: leEnc w (x / 256)

/-- Little-endian decoding of a byte list (inverse of `leEnc`). -/
def leVal : List Nat → Nat
  | [] => 0
  | b :: bs => b + 256 * leVal bs

/-- Size of the encoded metadata-file header: 4-byte magic + 4-byte page
size + 8-byte tick + 8-byte header size + 8-byte index length + 4-byte
checksum.  The source asserts `p - image == hdr_size` with
`hdr_size = H5FD_MD_HEADER_SIZE`, and advances `p` by exactly 36 bytes. -/
def H5FD_MD_HEADER_SIZE : Nat := 36

/-- Size of the encoded index frame for `n` entries: 4-byte magic + 8-byte
tick + 4-byte entry count + 16 bytes per entry + 4-byte checksum.  The
source asserts `p - image == idx_size` with
`idx_size = H5FD_MD_INDEX_SIZE(num_entries)`, and advances `p` by exactly
`20 + 16 n` bytes. -/
def H5FD_MD_INDEX_SIZE (n : Nat) : Nat := 20 + 16 * n

/-- On-disk size of one index entry (four `UINT32ENCODE`s). -/
def H5FD_MD_INDEX_ENTRY_SIZE : Nat := 16

/-- On-disk image of one index entry, as encoded by the loop in
`H5F__vfd_swmr_construct_write_md_idx`: four 4-byte little-endian fields. -/
def encIdxEntry (e : IdxEntry) : List Nat :=
  leEnc 4 e.hdf5_page_offset ++ leEnc 4 e.md_file_page_offset ++
  leEnc 4 e.length ++ leEnc 4 e.chksum

/-- On-disk image of the metadata-file header
(`H5F__vfd_swmr_construct_write_md_hdr`): magic, page size, tick number,
header size, index length, then the metadata checksum of the preceding
bytes.  `chk` abstracts `H5_checksum_metadata`, `hdrMagic` abstracts the
4-byte `H5FD_MD_HEADER_MAGIC`. -/
def encodeHdr (chk : List Nat → Nat) (hdrMagic : List Nat)
    (ps tick n : Nat) : List Nat :=
  let body := hdrMagic ++ leEnc 4 ps ++ leEnc 8 tick ++
    leEnc 8 H5FD_MD_HEADER_SIZE ++ leEnc 8 (H5FD_MD_INDEX_SIZE n)
  body ++ leEnc 4 (chk body)

/-- On-disk image of the index frame
(`H5F__vfd_swmr_construct_write_md_idx`): magic, tick number, entry count,
the encoded entries, then the metadata checksum of the preceding bytes. -/
def encodeIdx (chk : List Nat → Nat) (idxMagic : List Nat)
    (tick : Nat) (entries : List IdxEntry) : List Nat :=
  let body := idxMagic ++ leEnc 8 tick ++ leEnc 4 entries.length ++
    (entries.map encIdxEntry).flatten
  body ++ leEnc 4 (chk body)

/-! ## Index store creation (`H5F__vfd_swmr_writer__create_index`) -/

/-- The in-memory index, reduced to the bookkeeping the claims are about:
its fixed capacity (`f->shared->mdf_idx_len`) and the number of entries in
use (`f->shared->mdf_idx_entries_used`). -/
structure MdIndex where
  len : Nat
  used : Nat
deriving Repr, DecidableEq

/-- Capacity computation of `H5F__vfd_swmr_writer__create_index`:
`bytes_available = fs_page_size * md_pages_reserved - H5FD_MD_HEADER_SIZE`,
`entries_in_index = bytes_available / H5FD_MD_INDEX_ENTRY_SIZE`; the fresh
index has `mdf_idx_entries_used = 0`. -/
def createIndex (ps mdPagesReserved : Nat) : MdIndex :=
  { len := (ps * mdPagesReserved - H5FD_MD_HEADER_SIZE) /
      H5FD_MD_INDEX_ENTRY_SIZE,
    used := 0 }

/-- Error raised when the shadow file or index is exhausted. -/
inductive ShadowErr where
  | shadowFull
deriving Repr, DecidableEq

/-- Modelled from the spec: the index-insertion step of the page buffer's
`update_index` collaborator (`H5PB_vfd_swmr__update_index`, whose source is
not part of this repository).  Per the spec, the index is "an in-place
array of capacity `N` ...; `entries_used ≤ N`; exceeding `N` aborts", and
"inserting the `K+1`-th fails with `ShadowFull`". -/
def idxInsert (m : MdIndex) : Except ShadowErr MdIndex :=
  if m.used < m.len then .ok { m with used := m.used + 1 }
  else .error .shadowFull

/-! ## Writer close / flush (`H5F_vfd_swmr_close_or_flush`)

The routine is a straight-line sequence of fallible steps; each step's
`HGOTO_ERROR` jumps to `done`, skipping every later step.  We model each
primitive operation's success as a boolean input and record the operations
actually attempted, in order, together with the final success flag. -/

/-- The externally visible operations of `H5F_vfd_swmr_close_or_flush`. -/
inductive COp where
  | writeIdx    -- H5F__vfd_swmr_construct_write_md_idx(f, 0, NULL)
  | writeHdr    -- H5F__vfd_swmr_construct_write_md_hdr(f, 0)
  | closeFd     -- HDclose(f->shared->vfd_swmr_md_fd)
  | unlink      -- HDunlink(f->shared->vfd_swmr_config.md_file_path)
  | mvClose     -- H5MV_close(f)
  | freeDl      -- free the delayed list
  | updEot      -- H5F__vfd_swmr_update_end_of_tick_and_tick_num(f, TRUE)
deriving Repr, DecidableEq

/-- `H5F_vfd_swmr_close_or_flush`: the trace of operations attempted and
whether the routine succeeds, given the success of each primitive. -/
def closeOrFlush (okIdx okHdr okClose okUnlink okMv okUpd closing : Bool) :
    List COp × Bool :=
  if !okIdx then ([.writeIdx], false)
  else if !okHdr then ([.writeIdx, .writeHdr], false)
  else if closing then
    if !okClose then ([.writeIdx, .writeHdr, .closeFd], false)
    else if !okUnlink then ([.writeIdx, .writeHdr, .closeFd, .unlink], false)
    else if !okMv then
      ([.writeIdx, .writeHdr, .closeFd, .unlink, .mvClose], false)
    else ([.writeIdx, .writeHdr, .closeFd, .unlink, .mvClose, .freeDl], true)
  else
    ([.writeIdx, .writeHdr, .updEot], okUpd)

/-! ## EOT-queue file substitution (writer/reader end of tick, null `f`)

Both `H5F_vfd_swmr_writer_end_of_tick` and
`H5F_vfd_swmr_reader_end_of_tick` begin with
`if (f == NULL) f = vfd_swmr_eot_queue_head_g->vfd_swmr_file;`
with no check that the queue head is non-null. -/

/-- An entry of the process-wide end-of-tick queue
(`H5F_vfd_swmr_eot_queue_entry_t`).  Files are identified by a `Nat` id;
deadlines are `timespec`s (seconds, nanoseconds). -/
structure EotEntry where
  vfd_swmr_writer : Bool
  tick_num : Nat
  end_of_tick : Nat × Nat
  vfd_swmr_file : Nat
deriving Repr, DecidableEq

/-- The file-substitution prelude shared by the two end-of-tick routines:
a null `f` is replaced by the file of the EOT queue head.  A `none` result
models the null-pointer dereference of `vfd_swmr_eot_queue_head_g` on an
empty queue. -/
def resolveEotFile (f : Option Nat) (queue : List EotEntry) : Option Nat :=
  match f with
  | some x => some x
  | none => queue.head?.map (·.vfd_swmr_file)

/-! ## EOT-queue insertion (`H5F_vfd_swmr_insert_entry_eot`,
`H5F_EOT_INSERT_AFTER`) -/

/-- `timespeccmp(a, b, >)`: compare seconds, then nanoseconds. -/
def tsGt (a b : Nat × Nat) : Bool :=
  if a.1 = b.1 then decide (b.2 < a.2) else decide (b.1 < a.1)

/-- The predecessor search of `H5F_vfd_swmr_insert_entry_eot`: walk from
the queue tail towards the head past every entry whose deadline is greater
than `d`; return the position (from the head) of the entry stopped at, or
`none` if the walk falls off the head. -/
def findPrec (q : List EotEntry) (d : Nat × Nat) : Option Nat :=
  let kept := q.reverse.dropWhile (fun e => tsGt e.end_of_tick d)
  if kept.isEmpty then none else some (kept.length - 1)

/-- The `H5F_EOT_INSERT_AFTER` macro, given the predecessor's position.
`prec = none` prepends; a predecessor at the head of the queue takes the
macro's `prec_ptr->prev == NULL` branch, which **appends** the entry at
the tail; otherwise the entry is spliced in after the predecessor — and
when the predecessor is the tail of a queue of length ≥ 2, the splice
dereferences `prec_ptr->next == NULL` (modelled as `none`). -/
def eotInsertAfter (e : EotEntry) (prec : Option Nat)
    (q : List EotEntry) : Option (List EotEntry) :=
  match prec with
  | none => some (e :: q)
  | some i =>
    if i = 0 then some (q ++ [e])
    else if i + 1 < q.length then
      some (q.take (i + 1) ++ e :: q.drop (i + 1))
    else none

/-- `H5F_vfd_swmr_insert_entry_eot`: build the entry, find the
predecessor by the tail-first walk, and splice with
`H5F_EOT_INSERT_AFTER`. -/
def insertEntryEot (e : EotEntry) (q : List EotEntry) :
    Option (List EotEntry) :=
  eotInsertAfter e (findPrec q e.end_of_tick) q

/-! ## Freed-space holding tank (`src/H5MFfreedspace.c`) -/

/-- Metadata-cache client types named by `H5MF__freedspace_create_cb`
(`H5AC_*_ID`); `otherT n` stands for any other client type. -/
inductive AcType where
  | bt2Hdr | bt2Int | bt2Leaf
  | earrayHdr | earrayIblock | earraySblock | earrayDblock
  | earrayDblkPage
  | farrayHdr | farrayDblock | farrayDblkPage
  | ohdr | ohdrChk
  | freedspaceT | proxyEntry | epochMarker | prefetchedEntry
  | otherT (n : Nat)
deriving Repr, DecidableEq

/-- File-space allocation type: `H5FD_MEM_DRAW` versus everything else
(the only distinction `H5MFfreedspace.c` makes). -/
inductive MemType where
  | draw
  | notDraw (n : Nat)
deriving Repr, DecidableEq

/-- A metadata-cache entry as seen by the freedspace iteration callback
(`H5AC_info_t`): address, dirty flag, ring, client type. -/
structure CEntry where
  addr : Nat
  is_dirty : Bool
  ring : Nat
  typ : AcType
deriving Repr, DecidableEq

/-- The type whitelist of `H5MF__freedspace_create_cb`: for raw-data
frees, only v2-B-tree, extensible-array, fixed-array and object-header
clients; otherwise every client except the cache-internal ones. -/
def createFdEligible (allocType : MemType) (t : AcType) : Bool :=
  match allocType with
  | .draw =>
    match t with
    | .bt2Hdr | .bt2Int | .bt2Leaf
    | .earrayHdr | .earrayIblock | .earraySblock | .earrayDblock
    | .earrayDblkPage
    | .farrayHdr | .farrayDblock | .farrayDblkPage
    | .ohdr | .ohdrChk => true
    | _ => false
  | .notDraw _ =>
    match t with
    | .freedspaceT | .proxyEntry | .epochMarker | .prefetchedEntry => false
    | _ => true

/-- The full per-entry condition of `H5MF__freedspace_create_cb`: not the
freed entry itself, dirty, in a ring ≤ the context ring, and of an
eligible type. -/
def freedspaceQualifies (allocType : MemType) (ctxRing addr : Nat)
    (e : CEntry) : Bool :=
  decide (e.addr ≠ addr) && e.is_dirty && decide (e.ring ≤ ctxRing) &&
    createFdEligible allocType e.typ

/-- The `H5AC_iterate` loop of `H5MF__freedspace_create`: the accumulator
is `none` while no freedspace object exists and `some children` (the
addresses of the flush-dependency children linked so far) once the first
qualifying entry lazily creates it. -/
def freedspaceIterate (allocType : MemType) (ctxRing addr : Nat) :
    List CEntry → Option (List Nat) → Option (List Nat)
  | [], acc => acc
  | e :: es, acc =>
    freedspaceIterate allocType ctxRing addr es
      (if freedspaceQualifies allocType ctxRing addr e then
        some (acc.getD [] ++ [e.addr])
      else acc)

/-- Modelled from the spec: `H5AC_cache_is_clean` (a metadata-cache
collaborator whose source is not in this repository) — whether the cache
currently holds no dirty entries. -/
def cacheIsClean (entries : List CEntry) : Bool :=
  entries.all (fun e => !e.is_dirty)

/-- `H5MF__freedspace_create`: if the cache is clean, do nothing (`none`,
the free proceeds immediately); otherwise iterate over the cache, lazily
creating the freedspace object and linking each qualifying entry as a
flush-dependency child.  The result is `some children` iff a freedspace
object was created. -/
def freedspaceCreate (allocType : MemType) (ctxRing : Nat)
    (entries : List CEntry) (addr : Nat) : Option (List Nat) :=
  if cacheIsClean entries then none
  else freedspaceIterate allocType ctxRing addr entries none

/-! ## Writer publication (`H5F_update_vfd_swmr_metadata_file`)

The routine sorts the index with `HDqsort` and `H5F__idx_entry_cmp`
(comparison strictly by `hdf5_page_offset`), publishes every entry whose
`entry_ptr` is non-null, writes the index frame and then the header frame,
and finally reclaims timed-out delayed-list entries.  `H5MV_alloc` (shadow
free-space manager, outside this repository) is abstracted as an
allocation oracle `alloc : Nat → Option Nat` giving the address returned
by the i-th allocation call (`none` = `HADDR_UNDEF`), and
`H5_checksum_metadata` as `chk`. -/

/-- The shadow-file operations performed by the writer publication, in
program order. -/
inductive WEv where
  | writeEntry (md_addr : Nat) (length : Nat)
  | writeIdx (tick : Nat) (num_entries : Nat)
  | writeHdr (tick : Nat) (num_entries : Nat)
  | freeExtent (addr : Nat) (length : Nat)
deriving Repr, DecidableEq

/-- `HDqsort(index, num_entries, …, H5F__idx_entry_cmp)`: sort the index
by increasing `hdf5_page_offset`. -/
def sortIdx (idx : List IdxEntry) : List IdxEntry :=
  idx.mergeSort (fun a b => decide (a.hdf5_page_offset ≤ b.hdf5_page_offset))

/-- The per-entry loop of `H5F_update_vfd_swmr_metadata_file` over the
(sorted) index.  `k` counts allocation calls made so far, `dl` is the
delayed list (head first).  For a non-null `entry_ptr`: prepend the
previous image `{hdf5_page_offset, md_file_page_offset, length, tick}` to
the delayed list when `md_file_page_offset ≠ 0`; allocate; divide the
address by the page size; store the checksum of the image; write the
entry; null `entry_ptr`.  Returns the updated entries, delayed list,
entry-write events and allocation count. -/
def publishLoop (ps tick : Nat) (chk : List Nat → Nat)
    (alloc : Nat → Option Nat) (k : Nat) (dl : List DlEntry) :
    List IdxEntry →
      Except Unit (List IdxEntry × List DlEntry × List WEv × Nat)
  | [] => .ok ([], dl, [], k)
  | e :: es =>
    match e.entry_ptr with
    | none =>
      match publishLoop ps tick chk alloc k dl es with
      | .error u => .error u
      | .ok (es', dl', evs, k') => .ok (e :: es', dl', evs, k')
    | some bytes =>
      let dl1 := if e.md_file_page_offset ≠ 0 then
          ({ hdf5_page_offset := e.hdf5_page_offset,
             md_file_page_offset := e.md_file_page_offset,
             length := e.length, tick_num := tick } : DlEntry) :: dl
        else dl
      match alloc k with
      | none => .error ()
      | some md_addr =>
        let e' := { e with md_file_page_offset := md_addr / ps,
                           chksum := chk bytes,
                           entry_ptr := none }
        match publishLoop ps tick chk alloc (k + 1) dl1 es with
        | .error u => .error u
        | .ok (es', dl', evs, k') =>
          .ok (e' :: es', dl', WEv.writeEntry md_addr e.length :: evs, k')

/-- Eligibility test of the delayed-list reclamation scan:
`tick_num > max_lag && dl_entry->tick_num <= tick_num - max_lag`. -/
def reclaimElig (tick maxLag : Nat) (d : DlEntry) : Bool :=
  decide (maxLag < tick ∧ d.tick_num ≤ tick - maxLag)

/-- The closing scan of `H5F_update_vfd_swmr_metadata_file`: walk the
delayed list from the tail, free the shadow extent
(`md_file_page_offset * fs_page_size`, `length`) of every eligible entry
and remove it, stopping at the first non-eligible entry.  Returns the
remaining list and the free events in the order performed. -/
def reclaim (ps tick maxLag : Nat) (dl : List DlEntry) :
    List DlEntry × List WEv :=
  ((dl.reverse.dropWhile (reclaimElig tick maxLag)).reverse,
   (dl.reverse.takeWhile (reclaimElig tick maxLag)).map
     (fun d => WEv.freeExtent (d.md_file_page_offset * ps) d.length))

/-- `H5F_update_vfd_swmr_metadata_file`: sort, publish the entries, write
the index frame then the header frame, then reclaim timed-out delayed-list
entries. -/
def updateMdFile (ps tick maxLag : Nat) (chk : List Nat → Nat)
    (alloc : Nat → Option Nat) (dl : List DlEntry) (idx : List IdxEntry) :
    Except Unit (List IdxEntry × List DlEntry × List WEv) :=
  match publishLoop ps tick chk alloc 0 dl (sortIdx idx) with
  | .error u => .error u
  | .ok (idx', dl1, evs, _) =>
    let r := reclaim ps tick maxLag dl1
    .ok (idx', r.1,
      evs ++ [WEv.writeIdx tick idx'.length, WEv.writeHdr tick idx'.length]
        ++ r.2)

/-! Specification-side recursions, written from the claim's own wording
("for each entry whose `entry_ptr` is non-null … prepend … allocate …
divide … checksum … write … null"), used to state that the code refines
them.  `A i` is the address returned by the `i`-th allocation. -/

/-- Claim-side description of the published index: each non-null-image
entry gets `md_file_page_offset = A k / page_size`, the checksum of its
image, and a nulled `entry_ptr`; other entries are untouched. -/
def specPublish (ps tick : Nat) (chk : List Nat → Nat) (A : Nat → Nat) :
    Nat → List IdxEntry → List IdxEntry
  | _, [] => []
  | k, e :: es =>
    match e.entry_ptr with
    | none => e :: specPublish ps tick chk A k es
    | some bytes =>
      { e with md_file_page_offset := A k / ps, chksum := chk bytes,
               entry_ptr := none } :: specPublish ps tick chk A (k + 1) es

/-- Claim-side description of the delayed-list records added, in
processing order: one `{hdf5_page_offset, old md_file_page_offset, length,
current tick}` per published entry whose old `md_file_page_offset` is
nonzero. -/
def specDl (tick : Nat) : List IdxEntry → List DlEntry
  | [] => []
  | e :: es =>
    if e.entry_ptr ≠ none ∧ e.md_file_page_offset ≠ 0 then
      { hdf5_page_offset := e.hdf5_page_offset,
        md_file_page_offset := e.md_file_page_offset,
        length := e.length, tick_num := tick } :: specDl tick es
    else specDl tick es

/-- Claim-side description of the entry-write events: one write of
`length` bytes at address `A k` per published entry, in index order. -/
def specWrites (A : Nat → Nat) : Nat → List IdxEntry → List WEv
  | _, [] => []
  | k, e :: es =>
    match e.entry_ptr with
    | none => specWrites A k es
    | some _ => WEv.writeEntry (A k) e.length :: specWrites A (k + 1) es

/-- Number of entries with a non-null `entry_ptr` (= number of allocation
calls made by the publication loop). -/
def countPub : List IdxEntry → Nat
  | [] => 0
  | e :: es => (if e.entry_ptr = none then 0 else 1) + countPub es

/-! ## Delay-write oracle (`H5F_vfd_swmr_writer__delay_write`) -/

/-- The binary-search loop of `H5F_vfd_swmr_writer__delay_write` over the
metadata-file index.  The C loop runs on `int32_t` bounds `bottom`/`top`
with `top` initially `entries_used - 1`; we carry `hi = top + 1` so both
bounds are naturals (`top = -1` becomes `hi = 0`). -/
def bsearchGo (idx : List IdxEntry) (page : Nat) (bottom hi : Nat) :
    Option IdxEntry :=
  if _h : bottom < hi then
    match idx.get? ((bottom + hi - 1) / 2) with
    | none => none
    | some e =>
      if e.hdf5_page_offset < page then
        bsearchGo idx page ((bottom + hi - 1) / 2 + 1) hi
      else if page < e.hdf5_page_offset then
        bsearchGo idx page bottom ((bottom + hi - 1) / 2)
      else some e
  else none
termination_by hi - bottom
decreasing_by
  · omega
  · omega

/-- Binary search of the whole index (`bottom = 0`,
`top = entries_used - 1`). -/
def bsearch (idx : List IdxEntry) (page : Nat) : Option IdxEntry :=
  bsearchGo idx page 0 idx.length

/-- Error kind of the delay-write oracle's range check. -/
inductive DelayErr where
  | outOfRange
deriving Repr, DecidableEq

/-- `H5F_vfd_swmr_writer__delay_write`: binary-search the index; if absent
return `tick + max_lag`; if present return `delayed_flush` when
`delayed_flush ≥ tick`, else 0; then fail if the value is nonzero and
outside `[tick, tick + max_lag]`. -/
def delayWrite (tick maxLag : Nat) (idx : List IdxEntry) (page : Nat) :
    Except DelayErr Nat :=
  let d : Nat :=
    match bsearch idx page with
    | some e => if tick ≤ e.delayed_flush then e.delayed_flush else 0
    | none => tick + maxLag
  if d ≠ 0 ∧ ¬(tick ≤ d ∧ d ≤ tick + maxLag) then .error .outOfRange
  else .ok d

/-! ## Reader end-of-tick diff (`H5F_vfd_swmr_reader_end_of_tick`)

After swapping in the new index the reader runs a two-pass merge walk of
the old and new sorted indexes; pass 0 calls `H5PB_remove_entry` at
`hdf5_page_offset * page_size`, pass 1 calls
`H5C_evict_or_refresh_all_entries_in_page` at `hdf5_page_offset` with the
new tick. -/

/-- Actions issued by the reader end-of-tick diff: page-buffer removals
(pass 0) and metadata-cache evict-or-refresh calls (pass 1). -/
inductive RAct where
  | pbRemove (page_addr : Nat)
  | mdcEvict (page : Nat) (tick : Nat)
deriving Repr, DecidableEq

/-- One pass of the reader's merge walk over the old and new indexes
(both sorted by `hdf5_page_offset`), including the leftover loop over the
remaining old entries.  A page in both indexes with differing
`md_file_page_offset` or in the old index only is acted upon; a page only
in the new index is skipped. -/
def readerMerge (ps tick pass : Nat) :
    List IdxEntry → List IdxEntry → List RAct
  | [], _ => []
  | o :: os, [] =>
    (if pass = 0 then RAct.pbRemove (o.hdf5_page_offset * ps)
     else RAct.mdcEvict o.hdf5_page_offset tick) ::
      readerMerge ps tick pass os []
  | o :: os, n :: ns =>
    if o.hdf5_page_offset = n.hdf5_page_offset then
      (if o.md_file_page_offset ≠ n.md_file_page_offset then
        [if pass = 0 then RAct.pbRemove (n.hdf5_page_offset * ps)
         else RAct.mdcEvict n.hdf5_page_offset tick]
      else []) ++ readerMerge ps tick pass os ns
    else if o.hdf5_page_offset < n.hdf5_page_offset then
      (if pass = 0 then RAct.pbRemove (o.hdf5_page_offset * ps)
       else RAct.mdcEvict o.hdf5_page_offset tick) ::
        readerMerge ps tick pass os (n :: ns)
    else readerMerge ps tick pass (o :: os) ns
termination_by old new => old.length + new.length
decreasing_by
  all_goals simp_arith

/-- The full invalidation step of `H5F_vfd_swmr_reader_end_of_tick`:
`pass = 0` runs to completion before `pass = 1` starts. -/
def readerEotActs (ps tick : Nat) (old new : List IdxEntry) : List RAct :=
  readerMerge ps tick 0 old new ++ readerMerge ps tick 1 old new

/-- The page offsets the merge walk acts upon (the "diff"): in both with
different `md_file_page_offset`, or in the old index only. -/
def diffPages : List IdxEntry → List IdxEntry → List Nat
  | [], _ => []
  | o :: os, [] => o.hdf5_page_offset :: diffPages os []
  | o :: os, n :: ns =>
    if o.hdf5_page_offset = n.hdf5_page_offset then
      (if o.md_file_page_offset ≠ n.md_file_page_offset then
        [o.hdf5_page_offset]
      else []) ++ diffPages os ns
    else if o.hdf5_page_offset < n.hdf5_page_offset then
      o.hdf5_page_offset :: diffPages os (n :: ns)
    else diffPages (o :: os) ns
termination_by old new => old.length + new.length
decreasing_by
  all_goals simp_arith

/-- The claim-side classification of an affected page: present in both
indexes with a different `md_file_page_offset` (updated), or present in
the old index only (removed).  A page present in the new index only is
not affected. -/
def diffSpec (old new : List IdxEntry) (p : Nat) : Prop :=
  ((∃ o ∈ old, o.hdf5_page_offset = p) ∧
    (∀ m ∈ new, m.hdf5_page_offset ≠ p)) ∨
  (∃ o ∈ old, ∃ m ∈ new, o.hdf5_page_offset = p ∧
    m.hdf5_page_offset = p ∧
    o.md_file_page_offset ≠ m.md_file_page_offset)

end VfdSwmr

namespace VfdSwmr

/-! ## Theorems -/

/-! ### Helpers about the delayed-list reclamation scan -/

/-- The reclamation scan removes exactly a suffix of the delayed list. -/
theorem reclaim_split (ps tick maxLag : Nat) (dl : List DlEntry) :
    dl = (reclaim ps tick maxLag dl).1 ++
      (dl.reverse.takeWhile (reclaimElig tick maxLag)).reverse := by
  conv_lhs => rw [← dl.reverse_reverse,
    ← List.takeWhile_append_dropWhile (p := reclaimElig tick maxLag)
      (l := dl.reverse)]
  rw [List.reverse_append]
  rfl

/-- In a list whose `tick_num`s ascend from the head, every entry left by
`dropWhile reclaimElig` is non-eligible (the scan stopped at the first
non-eligible entry, and eligibility is monotone in `tick_num`). -/
theorem dropWhile_reclaimElig_false (tick maxLag : Nat) :
    ∀ (l : List DlEntry),
      l.Pairwise (fun a b => a.tick_num ≤ b.tick_num) →
      ∀ e ∈ l.dropWhile (reclaimElig tick maxLag),
        reclaimElig tick maxLag e = false := by
  intro l
  induction l with
  | nil => intro _ e he; simp [List.dropWhile] at he
  | cons a l ih =>
    intro hp e he
    rw [List.dropWhile_cons] at he
    by_cases ha : reclaimElig tick maxLag a
    · rw [if_pos ha] at he
      exact ih hp.of_cons e he
    · rw [if_neg ha] at he
      rcases List.mem_cons.mp he with rfl | he
      · exact Bool.eq_false_iff.mpr ha
      · have ha' : reclaimElig tick maxLag a = false :=
          Bool.eq_false_iff.mpr ha
        have hle : a.tick_num ≤ e.tick_num :=
          List.rel_of_pairwise_cons hp he
        simp only [reclaimElig, decide_eq_false_iff_not, not_and] at ha' ⊢
        intro hml hle2
        exact ha' hml (by omega)

/-- A non-eligible entry of the delayed list survives the reclamation
scan. -/
theorem mem_reclaim_of_not_elig (ps tick maxLag : Nat)
    (dl : List DlEntry) (e : DlEntry) (he : e ∈ dl)
    (hne : reclaimElig tick maxLag e = false) :
    e ∈ (reclaim ps tick maxLag dl).1 := by
  have h1 : e ∈ dl.reverse := List.mem_reverse.mpr he
  rw [← List.takeWhile_append_dropWhile (p := reclaimElig tick maxLag)
    (l := dl.reverse)] at h1
  rcases List.mem_append.mp h1 with h2 | h2
  · exact absurd (List.mem_takeWhile_imp h2) (by simp [hne])
  · exact List.mem_reverse.mpr h2

/-! ### Helpers about the little-endian codec -/

/-- `leEnc w x` always produces exactly `w` bytes. -/
theorem leEnc_length (w x : Nat) : (leEnc w x).length = w := by
  induction w generalizing x with
  | zero => rfl
  | succ w ih => simp [leEnc, ih]

/-- Decoding an encoded value recovers it modulo `256 ^ w`. -/
theorem leVal_leEnc (w x : Nat) : leVal (leEnc w x) = x % 256 ^ w := by
  induction w generalizing x with
  | zero => simp [leEnc, leVal, Nat.mod_one]
  | succ w ih =>
    rw [leEnc, leVal, ih, pow_succ']
    rw [← Nat.mod_mul_right_div_self x 256 (256 ^ w),
      ← Nat.mod_mod_of_dvd x (dvd_mul_right 256 (256 ^ w))]
    exact Nat.mod_add_div _ 256

/-- The encoded index entries occupy `16 * n` bytes. -/
theorem encIdx_flatten_length (entries : List IdxEntry) :
    ((entries.map encIdxEntry).flatten).length = 16 * entries.length := by
  induction entries with
  | nil => rfl
  | cons e es ih =>
    simp [encIdxEntry, leEnc_length, ih]
    omega

/-! ### Helpers about the reader end-of-tick merge walk -/

/-- Each pass of the merge walk performs one action per diff page, in
merge order: page-buffer removals at `page * page_size` in pass 0,
metadata-cache evict-or-refresh calls at `page` in pass 1. -/
theorem readerMerge_eq_diffPages (ps tick pass : Nat) :
    ∀ (n : Nat) (old new : List IdxEntry), old.length + new.length ≤ n →
      readerMerge ps tick pass old new = (diffPages old new).map
        (fun p => if pass = 0 then RAct.pbRemove (p * ps)
          else RAct.mdcEvict p tick) := by
  intro n
  induction n with
  | zero =>
    intro old new h
    match old with
    | [] => simp [readerMerge, diffPages]
    | o :: os => simp at h
  | succ n ih =>
    intro old new h
    match old, new with
    | [], _ => simp [readerMerge, diffPages]
    | o :: os, [] =>
      simp only [readerMerge, diffPages, List.map_cons]
      rw [ih os [] (by simp at h ⊢; omega)]
    | o :: os, nn :: ns =>
      simp only [readerMerge, diffPages]
      by_cases h1 : o.hdf5_page_offset = nn.hdf5_page_offset
      · rw [if_pos h1, if_pos h1]
        by_cases h2 : o.md_file_page_offset ≠ nn.md_file_page_offset
        · rw [if_pos h2, if_pos h2]
          rw [ih os ns (by simp at h; omega)]
          simp [h1]
        · rw [if_neg h2, if_neg h2]
          rw [ih os ns (by simp at h; omega)]
          simp
      · rw [if_neg h1, if_neg h1]
        by_cases h3 : o.hdf5_page_offset < nn.hdf5_page_offset
        · rw [if_pos h3, if_pos h3]
          rw [ih os (nn :: ns) (by simp at h ⊢; omega)]
          simp
        · rw [if_neg h3, if_neg h3]
          exact ih (o :: os) ns (by simp at h ⊢; omega)


/-- A page classified by `diffSpec` ignores an old-index head entry with a
different offset. -/
theorem diffSpec_cons_old {o : IdxEntry} {os new : List IdxEntry} {p : Nat}
    (hne : o.hdf5_page_offset ≠ p) :
    diffSpec (o :: os) new p ↔ diffSpec os new p := by
  constructor
  · rintro (⟨⟨x, hx, hxp⟩, hall⟩ | ⟨x, hx, m, hm, hxp, hmp, hmd⟩)
    · rcases List.mem_cons.mp hx with rfl | hx
      · exact absurd hxp hne
      · exact Or.inl ⟨⟨x, hx, hxp⟩, hall⟩
    · rcases List.mem_cons.mp hx with rfl | hx
      · exact absurd hxp hne
      · exact Or.inr ⟨x, hx, m, hm, hxp, hmp, hmd⟩
  · rintro (⟨⟨x, hx, hxp⟩, hall⟩ | ⟨x, hx, m, hm, hxp, hmp, hmd⟩)
    · exact Or.inl ⟨⟨x, List.mem_cons_of_mem _ hx, hxp⟩, hall⟩
    · exact Or.inr ⟨x, List.mem_cons_of_mem _ hx, m, hm, hxp, hmp, hmd⟩

theorem diffSpec_cons_new {m : IdxEntry} {old ns : List IdxEntry} {p : Nat}
    (hne : m.hdf5_page_offset ≠ p) :
    diffSpec old (m :: ns) p ↔ diffSpec old ns p := by
  constructor
  · rintro (⟨hex, hall⟩ | ⟨x, hx, m', hm', hxp, hmp, hmd⟩)
    · exact Or.inl ⟨hex, fun y hy => hall y (List.mem_cons_of_mem _ hy)⟩
    · rcases List.mem_cons.mp hm' with rfl | hm'
      · exact absurd hmp hne
      · exact Or.inr ⟨x, hx, m', hm', hxp, hmp, hmd⟩
  · rintro (⟨hex, hall⟩ | ⟨x, hx, m', hm', hxp, hmp, hmd⟩)
    · refine Or.inl ⟨hex, ?_⟩
      intro y hy
      rcases List.mem_cons.mp hy with rfl | hy
      · exact hne
      · exact hall y hy
    · exact Or.inr ⟨x, hx, m', List.mem_cons_of_mem _ hm', hxp, hmp, hmd⟩

theorem not_diffSpec_of_no_old {old new : List IdxEntry} {p : Nat}
    (h : ∀ x ∈ old, x.hdf5_page_offset ≠ p) : ¬ diffSpec old new p := by
  rintro (⟨⟨x, hx, hxp⟩, -⟩ | ⟨x, hx, -, -, hxp, -, -⟩)
  · exact h x hx hxp
  · exact h x hx hxp

theorem mem_diffPages (p : Nat) :
    ∀ (n : Nat) (old new : List IdxEntry), old.length + new.length ≤ n →
      old.Pairwise (fun a b => a.hdf5_page_offset < b.hdf5_page_offset) →
      new.Pairwise (fun a b => a.hdf5_page_offset < b.hdf5_page_offset) →
      (p ∈ diffPages old new ↔ diffSpec old new p) := by
  intro n
  induction n with
  | zero =>
    intro old new h hold hnew
    match old with
    | [] =>
      simp only [diffPages, List.not_mem_nil, false_iff]
      exact not_diffSpec_of_no_old (by simp)
    | o :: os => simp at h
  | succ n ih =>
    intro old new h hold hnew
    match old, new with
    | [], _ =>
      simp only [diffPages, List.not_mem_nil, false_iff]
      exact not_diffSpec_of_no_old (by simp)
    | o :: os, [] =>
      have hos : ∀ x ∈ os, o.hdf5_page_offset < x.hdf5_page_offset :=
        fun x hx => List.rel_of_pairwise_cons hold hx
      rw [diffPages]
      by_cases hp : o.hdf5_page_offset = p
      · constructor
        · intro _
          exact Or.inl ⟨⟨o, List.mem_cons_self _ _, hp⟩, by simp⟩
        · intro _
          exact hp ▸ List.mem_cons_self _ _
      · rw [List.mem_cons, or_iff_right (by omega)]
        rw [ih os [] (by simp at h ⊢; omega) hold.of_cons
          List.Pairwise.nil]
        exact (diffSpec_cons_old hp).symm
    | o :: os, nn :: ns =>
      have hos : ∀ x ∈ os, o.hdf5_page_offset < x.hdf5_page_offset :=
        fun x hx => List.rel_of_pairwise_cons hold hx
      have hns : ∀ x ∈ ns, nn.hdf5_page_offset < x.hdf5_page_offset :=
        fun x hx => List.rel_of_pairwise_cons hnew hx
      rw [diffPages]
      by_cases h1 : o.hdf5_page_offset = nn.hdf5_page_offset
      · rw [if_pos h1]
        have ihr := ih os ns (by simp at h ⊢; omega) hold.of_cons
          hnew.of_cons
        by_cases h2 : o.md_file_page_offset ≠ nn.md_file_page_offset
        · rw [if_pos h2]
          by_cases hp : o.hdf5_page_offset = p
          · constructor
            · intro _
              exact Or.inr ⟨o, List.mem_cons_self _ _, nn,
                List.mem_cons_self _ _, hp, h1 ▸ hp, h2⟩
            · intro _
              exact List.mem_append.mpr (Or.inl (hp ▸ List.mem_cons_self _ _))
          · rw [List.singleton_append, List.mem_cons,
              or_iff_right (by omega), ihr,
              ← diffSpec_cons_new (show nn.hdf5_page_offset ≠ p by omega),
              ← diffSpec_cons_old hp]
        · rw [if_neg h2]
          push_neg at h2
          rw [List.nil_append, ihr]
          by_cases hp : o.hdf5_page_offset = p
          · constructor
            · intro hd
              exact absurd hd (not_diffSpec_of_no_old
                (fun x hx => by have := hos x hx; omega))
            · rintro (⟨-, hall⟩ | ⟨x, hx, m, hm, hxp, hmp, hmd⟩)
              · exact absurd (h1 ▸ hp) (hall nn (List.mem_cons_self _ _))
              · rcases List.mem_cons.mp hx with rfl | hx
                · rcases List.mem_cons.mp hm with rfl | hm
                  · exact absurd h2 hmd
                  · have := hns m hm; omega
                · have := hos x hx; omega
          · rw [← diffSpec_cons_new (show nn.hdf5_page_offset ≠ p by omega),
              ← diffSpec_cons_old hp]
      · rw [if_neg h1]
        by_cases h3 : o.hdf5_page_offset < nn.hdf5_page_offset
        · rw [if_pos h3]
          have ihr := ih os (nn :: ns) (by simp at h ⊢; omega)
            hold.of_cons hnew
          by_cases hp : o.hdf5_page_offset = p
          · constructor
            · intro _
              refine Or.inl ⟨⟨o, List.mem_cons_self _ _, hp⟩, ?_⟩
              intro m hm
              rcases List.mem_cons.mp hm with rfl | hm
              · omega
              · have := hns m hm; omega
            · intro _
              exact hp ▸ List.mem_cons_self _ _
          · rw [List.mem_cons, or_iff_right (by omega), ihr,
              ← diffSpec_cons_old hp]
        · rw [if_neg h3]
          have hgt : nn.hdf5_page_offset < o.hdf5_page_offset := by omega
          have ihr := ih (o :: os) ns (by simp at h ⊢; omega) hold
            hnew.of_cons
          rw [ihr]
          by_cases hp : nn.hdf5_page_offset = p
          · constructor
            · intro hd
              exact absurd hd (not_diffSpec_of_no_old (by
                intro x hx
                rcases List.mem_cons.mp hx with rfl | hx
                · omega
                · have := hos x hx; omega))
            · intro hd
              exact absurd hd (not_diffSpec_of_no_old (by
                intro x hx
                rcases List.mem_cons.mp hx with rfl | hx
                · omega
                · have := hos x hx; omega))
          · rw [← diffSpec_cons_new hp]


/-! ### Helpers about the binary search of the delay-write oracle -/

/-- Soundness of the binary-search loop: a hit is an index entry with the
searched page offset. -/
theorem bsearchGo_sound (idx : List IdxEntry) (page : Nat) :
    ∀ (n bottom hi : Nat), hi - bottom ≤ n →
      ∀ e, bsearchGo idx page bottom hi = some e →
        e ∈ idx ∧ e.hdf5_page_offset = page := by
  intro n
  induction n with
  | zero =>
    intro bottom hi hle e h
    rw [bsearchGo, dif_neg (by omega)] at h
    cases h
  | succ n ih =>
    intro bottom hi hle e h
    by_cases hbh : bottom < hi
    · rw [bsearchGo, dif_pos hbh] at h
      cases hg : idx.get? ((bottom + hi - 1) / 2) with
      | none => rw [hg] at h; cases h
      | some a =>
        rw [hg] at h
        dsimp only at h
        by_cases h1 : a.hdf5_page_offset < page
        · rw [if_pos h1] at h
          exact ih _ _ (by omega) e h
        · rw [if_neg h1] at h
          by_cases h2 : page < a.hdf5_page_offset
          · rw [if_pos h2] at h
            exact ih _ _ (by omega) e h
          · rw [if_neg h2] at h
            cases h
            exact ⟨List.get?_mem hg, by omega⟩
    · rw [bsearchGo, dif_neg hbh] at h
      cases h

/-- Completeness of the binary-search loop on a sorted index: a miss means
no entry in the searched range carries the page offset. -/
theorem bsearchGo_none (idx : List IdxEntry) (page : Nat)
    (hsort : idx.Pairwise
      (fun a b => a.hdf5_page_offset < b.hdf5_page_offset)) :
    ∀ (n bottom hi : Nat), hi - bottom ≤ n → hi ≤ idx.length →
      bsearchGo idx page bottom hi = none →
      ∀ (i : Nat) (hil : i < idx.length), bottom ≤ i → i < hi →
        (idx.get ⟨i, hil⟩).hdf5_page_offset ≠ page := by
  intro n
  induction n with
  | zero =>
    intro bottom hi hle hhi h i hil hbi hih
    omega
  | succ n ih =>
    intro bottom hi hle hhi h i hil hbi hih
    have hbh : bottom < hi := by omega
    rw [bsearchGo, dif_pos hbh] at h
    have hpl : (bottom + hi - 1) / 2 < idx.length := by omega
    cases hg : idx.get? ((bottom + hi - 1) / 2) with
    | none =>
      have := List.get?_eq_none.mp hg
      omega
    | some a =>
      rw [hg] at h
      dsimp only at h
      obtain ⟨hlen2, hget⟩ := List.get?_eq_some.mp hg
      by_cases h1 : a.hdf5_page_offset < page
      · rw [if_pos h1] at h
        by_cases hi2 : (bottom + hi - 1) / 2 + 1 ≤ i
        · exact ih _ _ (by omega) hhi h i hil hi2 hih
        · have hmono : (idx.get ⟨i, hil⟩).hdf5_page_offset ≤
              a.hdf5_page_offset := by
            rcases Nat.lt_or_ge i ((bottom + hi - 1) / 2) with hlt | hge
            · have h3 := List.pairwise_iff_get.mp hsort ⟨i, hil⟩
                ⟨(bottom + hi - 1) / 2, hpl⟩ hlt
              rw [hget] at h3
              omega
            · have h4 : i = (bottom + hi - 1) / 2 := by omega
              have h5 : idx.get ⟨i, hil⟩ = a := by
                subst h4; exact hget
              rw [h5]
          omega
      · rw [if_neg h1] at h
        by_cases h2 : page < a.hdf5_page_offset
        · rw [if_pos h2] at h
          by_cases hi3 : i < (bottom + hi - 1) / 2
          · exact ih _ _ (by omega) (by omega) h i hil hbi hi3
          · have hmono : a.hdf5_page_offset ≤
                (idx.get ⟨i, hil⟩).hdf5_page_offset := by
              rcases Nat.lt_or_ge ((bottom + hi - 1) / 2) i with hlt | hge
              · have h3 := List.pairwise_iff_get.mp hsort
                  ⟨(bottom + hi - 1) / 2, hpl⟩ ⟨i, hil⟩ hlt
                rw [hget] at h3
                omega
              · have h4 : i = (bottom + hi - 1) / 2 := by omega
                have h5 : idx.get ⟨i, hil⟩ = a := by
                  subst h4; exact hget
                rw [h5]
            omega
        · rw [if_neg h2] at h
          cases h

/-- In a strictly sorted index the entry carrying a given page offset is
unique. -/
theorem sorted_off_unique (idx : List IdxEntry)
    (hsort : idx.Pairwise
      (fun a b => a.hdf5_page_offset < b.hdf5_page_offset))
    {e f : IdxEntry} (he : e ∈ idx) (hf : f ∈ idx)
    (hoff : e.hdf5_page_offset = f.hdf5_page_offset) : e = f := by
  obtain ⟨i, hi⟩ := List.mem_iff_get.mp he
  obtain ⟨j, hj⟩ := List.mem_iff_get.mp hf
  rcases Nat.lt_trichotomy i.1 j.1 with h | h | h
  · have h3 := List.pairwise_iff_get.mp hsort i j h
    rw [hi, hj] at h3
    omega
  · have : i = j := Fin.ext h
    subst this
    rw [← hi, ← hj]
  · have h3 := List.pairwise_iff_get.mp hsort j i h
    rw [hi, hj] at h3
    omega

/-! ### Helpers about the publication loop -/

/-- When every allocation succeeds (`alloc i = some (A i)`), the
publication loop refines the claim-side recursions: it returns the
spec-updated entries, prepends the spec delayed-list records (newest at
the head), emits the spec entry-write events, and makes one allocation
per published entry. -/
theorem publishLoop_eq (ps tick : Nat) (chk : List Nat → Nat)
    (alloc : Nat → Option Nat) (A : Nat → Nat)
    (hA : ∀ i, alloc i = some (A i)) :
    ∀ (es : List IdxEntry) (k : Nat) (dl : List DlEntry),
      publishLoop ps tick chk alloc k dl es =
        .ok (specPublish ps tick chk A k es,
             (specDl tick es).reverse ++ dl,
             specWrites A k es,
             k + countPub es) := by
  intro es
  induction es with
  | nil =>
    intro k dl
    simp [publishLoop, specPublish, specDl, specWrites, countPub]
  | cons e es ih =>
    intro k dl
    cases hp : e.entry_ptr with
    | none =>
      simp [publishLoop, hp, ih, specPublish, specDl, specWrites, countPub]
    | some bytes =>
      by_cases hmd : e.md_file_page_offset ≠ 0
      · simp [publishLoop, hp, hA k, ih, specPublish, specDl, specWrites,
          countPub, hmd, List.append_assoc]
        omega
      · simp [publishLoop, hp, hA k, ih, specPublish, specDl, specWrites,
          countPub, hmd]
        omega

/-- The publication loop does not change the number of index entries. -/
theorem specPublish_length (ps tick : Nat) (chk : List Nat → Nat)
    (A : Nat → Nat) :
    ∀ (es : List IdxEntry) (k : Nat),
      (specPublish ps tick chk A k es).length = es.length := by
  intro es
  induction es with
  | nil => intro k; rfl
  | cons e es ih =>
    intro k
    cases hp : e.entry_ptr <;> simp [specPublish, hp, ih]

/-- Every published entry whose previous shadow location was nonzero
contributes its previous image to the spec delayed-list records. -/
theorem mem_specDl (tick : Nat) :
    ∀ (es : List IdxEntry) (e : IdxEntry), e ∈ es →
      e.entry_ptr ≠ none → e.md_file_page_offset ≠ 0 →
      ({ hdf5_page_offset := e.hdf5_page_offset,
         md_file_page_offset := e.md_file_page_offset,
         length := e.length, tick_num := tick } : DlEntry) ∈ specDl tick es := by
  intro es
  induction es with
  | nil => intro e he; simp at he
  | cons a es ih =>
    intro e he hp hmd
    rcases List.mem_cons.mp he with rfl | he
    · rw [specDl, if_pos ⟨hp, hmd⟩]
      exact List.mem_cons_self _ _
    · rw [specDl]
      split
      · exact List.mem_cons_of_mem _ (ih e he hp hmd)
      · exact ih e he hp hmd

/-- **C1.** In every writer publication with all allocations succeeding:
after sorting by `hdf5_page_offset`, each entry with a non-null
`entry_ptr` (i) prepends `{hdf5_page_offset, old md_file_page_offset,
length, current tick}` to the delayed list when the old offset is
nonzero, (ii) gets a fresh extent whose address divided by the page size
becomes its `md_file_page_offset`, (iii) stores the checksum of its
image, (iv) has its bytes written at the new address, and (v) has
`entry_ptr` nulled; all entry writes precede the index-frame write, which
precedes the header-frame write (the trailing events are the delayed-list
frees). -/
theorem writer_publication (ps tick maxLag : Nat) (chk : List Nat → Nat)
    (alloc : Nat → Option Nat) (A : Nat → Nat)
    (hA : ∀ i, alloc i = some (A i)) (hml : 3 ≤ maxLag)
    (dl : List DlEntry) (idx : List IdxEntry) :
    ∃ dl' frees,
      updateMdFile ps tick maxLag chk alloc dl idx =
        .ok (specPublish ps tick chk A 0 (sortIdx idx), dl',
          specWrites A 0 (sortIdx idx) ++
            [WEv.writeIdx tick idx.length, WEv.writeHdr tick idx.length] ++
            frees) ∧
      (∀ ev ∈ frees, ∃ a l, ev = WEv.freeExtent a l) ∧
      (∃ removed, (specDl tick (sortIdx idx)).reverse ++ dl =
        dl' ++ removed) ∧
      (∀ e ∈ sortIdx idx, e.entry_ptr ≠ none →
        e.md_file_page_offset ≠ 0 →
        ({ hdf5_page_offset := e.hdf5_page_offset,
           md_file_page_offset := e.md_file_page_offset,
           length := e.length, tick_num := tick } : DlEntry) ∈ dl') := by
  have hlen : (specPublish ps tick chk A 0 (sortIdx idx)).length =
      idx.length := by
    rw [specPublish_length]
    simp [sortIdx]
  refine ⟨(reclaim ps tick maxLag
      ((specDl tick (sortIdx idx)).reverse ++ dl)).1,
    (reclaim ps tick maxLag
      ((specDl tick (sortIdx idx)).reverse ++ dl)).2, ?_, ?_, ?_, ?_⟩
  · rw [updateMdFile, publishLoop_eq ps tick chk alloc A hA]
    dsimp only
    rw [hlen]
  · intro ev hev
    simp only [reclaim] at hev
    obtain ⟨d, -, rfl⟩ := List.mem_map.mp hev
    exact ⟨_, _, rfl⟩
  · exact ⟨_, reclaim_split ps tick maxLag _⟩
  · intro e he hp hmd
    apply mem_reclaim_of_not_elig
    · refine List.mem_append.mpr (Or.inl ?_)
      exact List.mem_reverse.mpr (mem_specDl tick _ e he hp hmd)
    · simp only [reclaimElig, decide_eq_false_iff_not, not_and]
      intro hlt
      omega

/-- Witness for C1: one modified page (previous shadow offset 7) at tick
2, `max_lag = 3`, page size 4096; the allocation oracle hands out
page-aligned addresses. -/
theorem writer_publication_witness :
    ((∀ i, (fun j => some (4096 * (j + 1))) i =
        some ((fun j => 4096 * (j + 1)) i)) ∧ 3 ≤ 3) ∧
    (∃ dl' frees,
      updateMdFile 4096 2 3 (fun _ => 99)
          (fun j => some (4096 * (j + 1))) []
          [⟨100, 7, 4096, 0, some [1, 2], 0, false, 0, 0, false⟩] =
        .ok (specPublish 4096 2 (fun _ => 99) (fun j => 4096 * (j + 1)) 0
            (sortIdx [⟨100, 7, 4096, 0, some [1, 2], 0, false, 0, 0,
              false⟩]),
          dl',
          specWrites (fun j => 4096 * (j + 1)) 0
              (sortIdx [⟨100, 7, 4096, 0, some [1, 2], 0, false, 0, 0,
                false⟩]) ++
            [WEv.writeIdx 2 1, WEv.writeHdr 2 1] ++ frees) ∧
      (∀ ev ∈ frees, ∃ a l, ev = WEv.freeExtent a l) ∧
      (∃ removed, (specDl 2
          (sortIdx [⟨100, 7, 4096, 0, some [1, 2], 0, false, 0, 0,
            false⟩])).reverse ++ [] = dl' ++ removed) ∧
      (∀ e ∈ sortIdx [⟨100, 7, 4096, 0, some [1, 2], 0, false, 0, 0,
          false⟩], e.entry_ptr ≠ none → e.md_file_page_offset ≠ 0 →
        ({ hdf5_page_offset := e.hdf5_page_offset,
           md_file_page_offset := e.md_file_page_offset,
           length := e.length, tick_num := 2 } : DlEntry) ∈ dl')) :=
  ⟨⟨fun _ => rfl, by decide⟩,
    writer_publication 4096 2 3 (fun _ => 99)
      (fun j => some (4096 * (j + 1))) (fun j => 4096 * (j + 1))
      (fun _ => rfl) (by decide) []
      [⟨100, 7, 4096, 0, some [1, 2], 0, false, 0, 0, false⟩]⟩

/-- **C2.** At the end of writer tick publication the delayed list is
walked from the tail (oldest tick first); every entry encountered with
`tick_num ≤ current_tick − max_lag` has its shadow extent freed and is
removed, the walk stopping at the first non-eligible entry; afterwards
every remaining entry satisfies `current_tick − tick_num < max_lag`.
Hypotheses: insertions are at the head with the then-current tick, so the
list's ticks descend from head to tail and lie in `[1, current_tick]`. -/
theorem delayed_list_reclamation (ps tick maxLag : Nat) (dl : List DlEntry)
    (hsort : dl.Pairwise (fun a b => b.tick_num ≤ a.tick_num))
    (hbound : ∀ e ∈ dl, 1 ≤ e.tick_num ∧ e.tick_num ≤ tick) :
    (∃ s, dl = (reclaim ps tick maxLag dl).1 ++ s ∧
      (∀ e ∈ s, maxLag < tick ∧ e.tick_num ≤ tick - maxLag) ∧
      (reclaim ps tick maxLag dl).2 = s.reverse.map
        (fun d => WEv.freeExtent (d.md_file_page_offset * ps) d.length)) ∧
    (∀ e ∈ (reclaim ps tick maxLag dl).1, tick - e.tick_num < maxLag) := by
  constructor
  · refine ⟨(dl.reverse.takeWhile (reclaimElig tick maxLag)).reverse,
      reclaim_split ps tick maxLag dl, ?_, ?_⟩
    · intro e he
      have h1 := List.mem_takeWhile_imp (List.mem_reverse.mp he)
      simpa [reclaimElig] using h1
    · rw [List.reverse_reverse]
      rfl
  · intro e he
    have h1 : e ∈ dl.reverse.dropWhile (reclaimElig tick maxLag) := by
      simpa [reclaim] using List.mem_reverse.mp he
    have h2 : dl.reverse.Pairwise (fun a b => a.tick_num ≤ b.tick_num) :=
      List.pairwise_reverse.mpr hsort
    have h3 := dropWhile_reclaimElig_false tick maxLag dl.reverse h2 e h1
    have h4 : e ∈ dl := by
      have := List.dropWhile_sublist (l := dl.reverse)
        (p := reclaimElig tick maxLag)
      exact List.mem_reverse.mp (this.mem h1)
    have h5 := hbound e h4
    simp only [reclaimElig, decide_eq_false_iff_not, not_and] at h3
    by_cases hml : maxLag < tick
    · have := h3 hml
      omega
    · omega

/-- Witness for C2 at the claim's example: an extent superseded at tick 2
with `max_lag = 3`, examined at current tick 5 — the scan frees it and the
remaining list is empty. -/
theorem delayed_list_reclamation_witness :
    (([⟨100, 7, 4096, 2⟩] : List DlEntry).Pairwise
        (fun a b => b.tick_num ≤ a.tick_num) ∧
      (∀ e ∈ ([⟨100, 7, 4096, 2⟩] : List DlEntry),
        1 ≤ e.tick_num ∧ e.tick_num ≤ 5)) ∧
    ((∃ s, ([⟨100, 7, 4096, 2⟩] : List DlEntry) =
        (reclaim 4096 5 3 [⟨100, 7, 4096, 2⟩]).1 ++ s ∧
        (∀ e ∈ s, 3 < 5 ∧ e.tick_num ≤ 5 - 3) ∧
        (reclaim 4096 5 3 [⟨100, 7, 4096, 2⟩]).2 = s.reverse.map
          (fun d => WEv.freeExtent (d.md_file_page_offset * 4096)
            d.length)) ∧
      (∀ e ∈ (reclaim 4096 5 3 [⟨100, 7, 4096, 2⟩]).1,
        5 - e.tick_num < 3)) :=
  ⟨⟨by decide, by decide⟩,
    delayed_list_reclamation 4096 5 3 [⟨100, 7, 4096, 2⟩]
      (by decide) (by decide)⟩

/-- **C5.** When the reader observes an advanced tick, the merge walk of
the old and new sorted indexes classifies every page: present in both
with a different `md_file_page_offset` → evicted; present in the old
index only → evicted; present in the new index only → no action.  The
eviction runs in two ordered passes over the whole diff: pass 0 removes
each affected page from the page buffer (`H5PB_remove_entry` at
`page * page_size`), and only afterwards pass 1 asks the metadata cache
to evict-or-refresh all entries in each affected page
(`H5C_evict_or_refresh_all_entries_in_page` at `page` with the new
tick). -/
theorem reader_eot_two_pass_diff (ps tick : Nat)
    (old new : List IdxEntry)
    (hold : old.Pairwise
      (fun a b => a.hdf5_page_offset < b.hdf5_page_offset))
    (hnew : new.Pairwise
      (fun a b => a.hdf5_page_offset < b.hdf5_page_offset)) :
    readerEotActs ps tick old new =
      (diffPages old new).map (fun p => RAct.pbRemove (p * ps)) ++
      (diffPages old new).map (fun p => RAct.mdcEvict p tick) ∧
    (∀ p, p ∈ diffPages old new ↔ diffSpec old new p) ∧
    (∀ m ∈ new, (∀ o ∈ old, o.hdf5_page_offset ≠ m.hdf5_page_offset) →
      m.hdf5_page_offset ∉ diffPages old new) := by
  refine ⟨?_, ?_, ?_⟩
  · rw [readerEotActs,
      readerMerge_eq_diffPages ps tick 0 (old.length + new.length) old new
        (le_refl _),
      readerMerge_eq_diffPages ps tick 1 (old.length + new.length) old new
        (le_refl _)]
    norm_num
  · intro p
    exact mem_diffPages p (old.length + new.length) old new (le_refl _)
      hold hnew
  · intro m hm hall
    rw [mem_diffPages _ (old.length + new.length) old new (le_refl _)
      hold hnew]
    exact not_diffSpec_of_no_old hall

/-- Witness for C5 at the spec's S3 scenario: page 42's shadow extent
changed between the old and new index (7 → 8); the reader issues the
page-buffer removal at `42 * 4096` and then the metadata-cache
evict-or-refresh at page 42 with the new tick 8. -/
theorem reader_eot_two_pass_diff_witness :
    readerEotActs 4096 8
      [⟨42, 7, 4096, 0, none, 0, false, 0, 0, false⟩]
      [⟨42, 8, 4096, 0, none, 0, false, 0, 0, false⟩] =
      [RAct.pbRemove (42 * 4096), RAct.mdcEvict 42 8] := by
  have h := (reader_eot_two_pass_diff 4096 8
    [⟨42, 7, 4096, 0, none, 0, false, 0, 0, false⟩]
    [⟨42, 8, 4096, 0, none, 0, false, 0, 0, false⟩]
    (by decide) (by decide)).1
  rw [h]
  have hd : diffPages [⟨42, 7, 4096, 0, none, 0, false, 0, 0, false⟩]
      [⟨42, 8, 4096, 0, none, 0, false, 0, 0, false⟩] = [42] := by
    simp [diffPages]
  rw [hd]
  rfl

/-- **C6.** The encoded header frame is exactly 36 bytes — 4-byte magic,
4-byte page size, 8-byte tick, 8-byte header size (36), 8-byte index
length, and a 4-byte CRC over the preceding 32 bytes — and the encoded
index frame is the 4-byte magic, the same 8-byte tick as the header, a
4-byte entry count `n`, then `n` 16-byte entries (4-byte
`hdf5_page_offset`, `md_file_page_offset`, `length`, `chksum`), followed
by a 4-byte CRC of the preceding bytes; all integers little-endian. -/
theorem codec_byte_exact (chk : List Nat → Nat)
    (hdrMagic idxMagic : List Nat) (ps tick : Nat)
    (entries : List IdxEntry)
    (hM4 : hdrMagic.length = 4) (hI4 : idxMagic.length = 4) :
    (encodeHdr chk hdrMagic ps tick entries.length).length = 36 ∧
    (encodeHdr chk hdrMagic ps tick entries.length).take 4 = hdrMagic ∧
    leVal (((encodeHdr chk hdrMagic ps tick entries.length).drop 4).take 4)
      = ps % 2 ^ 32 ∧
    leVal (((encodeHdr chk hdrMagic ps tick entries.length).drop 8).take 8)
      = tick % 2 ^ 64 ∧
    leVal (((encodeHdr chk hdrMagic ps tick entries.length).drop 16).take 8)
      = 36 ∧
    leVal (((encodeHdr chk hdrMagic ps tick entries.length).drop 24).take 8)
      = (20 + 16 * entries.length) % 2 ^ 64 ∧
    (encodeHdr chk hdrMagic ps tick entries.length).drop 32 =
      leEnc 4 (chk ((encodeHdr chk hdrMagic ps tick entries.length).take 32)) ∧
    (encodeIdx chk idxMagic tick entries).length =
      20 + 16 * entries.length ∧
    (encodeIdx chk idxMagic tick entries).take 4 = idxMagic ∧
    leVal (((encodeIdx chk idxMagic tick entries).drop 4).take 8)
      = tick % 2 ^ 64 ∧
    leVal (((encodeIdx chk idxMagic tick entries).drop 12).take 4)
      = entries.length % 2 ^ 32 ∧
    ((encodeIdx chk idxMagic tick entries).drop 16).take
        (16 * entries.length) = (entries.map encIdxEntry).flatten ∧
    (encodeIdx chk idxMagic tick entries).drop (16 + 16 * entries.length) =
      leEnc 4 (chk ((encodeIdx chk idxMagic tick entries).take
        (16 + 16 * entries.length))) ∧
    ((encodeHdr chk hdrMagic ps tick entries.length).drop 8).take 8 =
      ((encodeIdx chk idxMagic tick entries).drop 4).take 8 ∧
    (∀ e : IdxEntry, (encIdxEntry e).length = 16 ∧
      leVal ((encIdxEntry e).take 4) = e.hdf5_page_offset % 2 ^ 32 ∧
      leVal (((encIdxEntry e).drop 4).take 4) =
        e.md_file_page_offset % 2 ^ 32 ∧
      leVal (((encIdxEntry e).drop 8).take 4) = e.length % 2 ^ 32 ∧
      leVal ((encIdxEntry e).drop 12) = e.chksum % 2 ^ 32) := by
  have h256_4 : (256 : Nat) ^ 4 = 2 ^ 32 := by norm_num
  have h256_8 : (256 : Nat) ^ 8 = 2 ^ 64 := by norm_num
  -- Decompositions of the header frame at each field boundary.
  have hH0 : encodeHdr chk hdrMagic ps tick entries.length =
      hdrMagic ++ (leEnc 4 ps ++ (leEnc 8 tick ++ (leEnc 8 36 ++
        (leEnc 8 (20 + 16 * entries.length) ++
          leEnc 4 (chk (hdrMagic ++ leEnc 4 ps ++ leEnc 8 tick ++
            leEnc 8 36 ++ leEnc 8 (20 + 16 * entries.length))))))) := by
    simp [encodeHdr, H5FD_MD_HEADER_SIZE, H5FD_MD_INDEX_SIZE,
      List.append_assoc]
  have hH4 : (encodeHdr chk hdrMagic ps tick entries.length).drop 4 =
      leEnc 4 ps ++ (leEnc 8 tick ++ (leEnc 8 36 ++
        (leEnc 8 (20 + 16 * entries.length) ++
          leEnc 4 (chk (hdrMagic ++ leEnc 4 ps ++ leEnc 8 tick ++
            leEnc 8 36 ++ leEnc 8 (20 + 16 * entries.length)))))) := by
    rw [hH0]; exact List.drop_left' hM4
  have hH8 : (encodeHdr chk hdrMagic ps tick entries.length).drop 8 =
      leEnc 8 tick ++ (leEnc 8 36 ++
        (leEnc 8 (20 + 16 * entries.length) ++
          leEnc 4 (chk (hdrMagic ++ leEnc 4 ps ++ leEnc 8 tick ++
            leEnc 8 36 ++ leEnc 8 (20 + 16 * entries.length))))) := by
    have : encodeHdr chk hdrMagic ps tick entries.length =
        (hdrMagic ++ leEnc 4 ps) ++ (leEnc 8 tick ++ (leEnc 8 36 ++
          (leEnc 8 (20 + 16 * entries.length) ++
            leEnc 4 (chk (hdrMagic ++ leEnc 4 ps ++ leEnc 8 tick ++
              leEnc 8 36 ++ leEnc 8 (20 + 16 * entries.length)))))) := by
      rw [hH0]; simp [List.append_assoc]
    rw [this]
    exact List.drop_left' (by simp [hM4, leEnc_length])
  have hH16 : (encodeHdr chk hdrMagic ps tick entries.length).drop 16 =
      leEnc 8 36 ++ (leEnc 8 (20 + 16 * entries.length) ++
        leEnc 4 (chk (hdrMagic ++ leEnc 4 ps ++ leEnc 8 tick ++
          leEnc 8 36 ++ leEnc 8 (20 + 16 * entries.length)))) := by
    have : encodeHdr chk hdrMagic ps tick entries.length =
        (hdrMagic ++ leEnc 4 ps ++ leEnc 8 tick) ++ (leEnc 8 36 ++
          (leEnc 8 (20 + 16 * entries.length) ++
            leEnc 4 (chk (hdrMagic ++ leEnc 4 ps ++ leEnc 8 tick ++
              leEnc 8 36 ++ leEnc 8 (20 + 16 * entries.length))))) := by
      rw [hH0]; simp [List.append_assoc]
    rw [this]
    exact List.drop_left' (by simp [hM4, leEnc_length])
  have hH24 : (encodeHdr chk hdrMagic ps tick entries.length).drop 24 =
      leEnc 8 (20 + 16 * entries.length) ++
        leEnc 4 (chk (hdrMagic ++ leEnc 4 ps ++ leEnc 8 tick ++
          leEnc 8 36 ++ leEnc 8 (20 + 16 * entries.length))) := by
    have : encodeHdr chk hdrMagic ps tick entries.length =
        (hdrMagic ++ leEnc 4 ps ++ leEnc 8 tick ++ leEnc 8 36) ++
          (leEnc 8 (20 + 16 * entries.length) ++
            leEnc 4 (chk (hdrMagic ++ leEnc 4 ps ++ leEnc 8 tick ++
              leEnc 8 36 ++ leEnc 8 (20 + 16 * entries.length)))) := by
      rw [hH0]; simp [List.append_assoc]
    rw [this]
    exact List.drop_left' (by simp [hM4, leEnc_length])
  have hHtake32 : (encodeHdr chk hdrMagic ps tick entries.length).take 32 =
      hdrMagic ++ leEnc 4 ps ++ leEnc 8 tick ++ leEnc 8 36 ++
        leEnc 8 (20 + 16 * entries.length) := by
    have : encodeHdr chk hdrMagic ps tick entries.length =
        (hdrMagic ++ leEnc 4 ps ++ leEnc 8 tick ++ leEnc 8 36 ++
          leEnc 8 (20 + 16 * entries.length)) ++
          leEnc 4 (chk (hdrMagic ++ leEnc 4 ps ++ leEnc 8 tick ++
            leEnc 8 36 ++ leEnc 8 (20 + 16 * entries.length))) := by
      rw [hH0]; simp [List.append_assoc]
    rw [this]
    exact List.take_left' (by simp [hM4, leEnc_length])
  have hH32 : (encodeHdr chk hdrMagic ps tick entries.length).drop 32 =
      leEnc 4 (chk (hdrMagic ++ leEnc 4 ps ++ leEnc 8 tick ++
        leEnc 8 36 ++ leEnc 8 (20 + 16 * entries.length))) := by
    have : encodeHdr chk hdrMagic ps tick entries.length =
        (hdrMagic ++ leEnc 4 ps ++ leEnc 8 tick ++ leEnc 8 36 ++
          leEnc 8 (20 + 16 * entries.length)) ++
          leEnc 4 (chk (hdrMagic ++ leEnc 4 ps ++ leEnc 8 tick ++
            leEnc 8 36 ++ leEnc 8 (20 + 16 * entries.length))) := by
      rw [hH0]; simp [List.append_assoc]
    rw [this]
    exact List.drop_left' (by simp [hM4, leEnc_length])
  -- Decompositions of the index frame at each field boundary.
  have hX0 : encodeIdx chk idxMagic tick entries =
      idxMagic ++ (leEnc 8 tick ++ (leEnc 4 entries.length ++
        ((entries.map encIdxEntry).flatten ++
          leEnc 4 (chk (idxMagic ++ leEnc 8 tick ++
            leEnc 4 entries.length ++
            (entries.map encIdxEntry).flatten))))) := by
    simp [encodeIdx, List.append_assoc]
  have hX4 : (encodeIdx chk idxMagic tick entries).drop 4 =
      leEnc 8 tick ++ (leEnc 4 entries.length ++
        ((entries.map encIdxEntry).flatten ++
          leEnc 4 (chk (idxMagic ++ leEnc 8 tick ++
            leEnc 4 entries.length ++
            (entries.map encIdxEntry).flatten)))) := by
    rw [hX0]; exact List.drop_left' hI4
  have hX12 : (encodeIdx chk idxMagic tick entries).drop 12 =
      leEnc 4 entries.length ++
        ((entries.map encIdxEntry).flatten ++
          leEnc 4 (chk (idxMagic ++ leEnc 8 tick ++
            leEnc 4 entries.length ++
            (entries.map encIdxEntry).flatten))) := by
    have : encodeIdx chk idxMagic tick entries =
        (idxMagic ++ leEnc 8 tick) ++ (leEnc 4 entries.length ++
          ((entries.map encIdxEntry).flatten ++
            leEnc 4 (chk (idxMagic ++ leEnc 8 tick ++
              leEnc 4 entries.length ++
              (entries.map encIdxEntry).flatten)))) := by
      rw [hX0]; simp [List.append_assoc]
    rw [this]
    exact List.drop_left' (by simp [hI4, leEnc_length])
  have hX16 : (encodeIdx chk idxMagic tick entries).drop 16 =
      (entries.map encIdxEntry).flatten ++
        leEnc 4 (chk (idxMagic ++ leEnc 8 tick ++
          leEnc 4 entries.length ++ (entries.map encIdxEntry).flatten)) := by
    have : encodeIdx chk idxMagic tick entries =
        (idxMagic ++ leEnc 8 tick ++ leEnc 4 entries.length) ++
          ((entries.map encIdxEntry).flatten ++
            leEnc 4 (chk (idxMagic ++ leEnc 8 tick ++
              leEnc 4 entries.length ++
              (entries.map encIdxEntry).flatten))) := by
      rw [hX0]; simp [List.append_assoc]
    rw [this]
    exact List.drop_left' (by simp [hI4, leEnc_length])
  have hXtakeBody : (encodeIdx chk idxMagic tick entries).take
      (16 + 16 * entries.length) =
      idxMagic ++ leEnc 8 tick ++ leEnc 4 entries.length ++
        (entries.map encIdxEntry).flatten := by
    have : encodeIdx chk idxMagic tick entries =
        (idxMagic ++ leEnc 8 tick ++ leEnc 4 entries.length ++
          (entries.map encIdxEntry).flatten) ++
          leEnc 4 (chk (idxMagic ++ leEnc 8 tick ++
            leEnc 4 entries.length ++
            (entries.map encIdxEntry).flatten)) := by
      rw [hX0]; simp [List.append_assoc]
    rw [this]
    exact List.take_left'
      (by simp only [List.length_append, hI4, leEnc_length,
        encIdx_flatten_length])
  have hXdropBody : (encodeIdx chk idxMagic tick entries).drop
      (16 + 16 * entries.length) =
      leEnc 4 (chk (idxMagic ++ leEnc 8 tick ++ leEnc 4 entries.length ++
        (entries.map encIdxEntry).flatten)) := by
    have : encodeIdx chk idxMagic tick entries =
        (idxMagic ++ leEnc 8 tick ++ leEnc 4 entries.length ++
          (entries.map encIdxEntry).flatten) ++
          leEnc 4 (chk (idxMagic ++ leEnc 8 tick ++
            leEnc 4 entries.length ++
            (entries.map encIdxEntry).flatten)) := by
      rw [hX0]; simp [List.append_assoc]
    rw [this]
    exact List.drop_left'
      (by simp only [List.length_append, hI4, leEnc_length,
        encIdx_flatten_length])
  refine ⟨?_, ?_, ?_, ?_, ?_, ?_, ?_, ?_, ?_, ?_, ?_, ?_, ?_, ?_, ?_⟩
  · simp [encodeHdr, hM4, leEnc_length, H5FD_MD_HEADER_SIZE,
      H5FD_MD_INDEX_SIZE]
  · rw [hH0]; exact List.take_left' hM4
  · rw [hH4, List.take_left' (leEnc_length 4 ps), leVal_leEnc, h256_4]
  · rw [hH8, List.take_left' (leEnc_length 8 tick), leVal_leEnc, h256_8]
  · rw [hH16, List.take_left' (leEnc_length 8 36), leVal_leEnc]
    norm_num
  · rw [hH24, List.take_left' (leEnc_length 8 _), leVal_leEnc, h256_8]
  · rw [hH32, hHtake32]
  · simp only [encodeIdx, List.length_append, hI4, leEnc_length,
      encIdx_flatten_length]
    omega
  · rw [hX0]; exact List.take_left' hI4
  · rw [hX4, List.take_left' (leEnc_length 8 tick), leVal_leEnc, h256_8]
  · rw [hX12, List.take_left' (leEnc_length 4 _), leVal_leEnc, h256_4]
  · rw [hX16]; exact List.take_left' (encIdx_flatten_length entries)
  · rw [hXdropBody, hXtakeBody]
  · rw [hH8, List.take_left' (leEnc_length 8 tick),
      hX4, List.take_left' (leEnc_length 8 tick)]
  · intro e
    have he0 : encIdxEntry e =
        leEnc 4 e.hdf5_page_offset ++ (leEnc 4 e.md_file_page_offset ++
          (leEnc 4 e.length ++ leEnc 4 e.chksum)) := by
      simp [encIdxEntry, List.append_assoc]
    have he4 : (encIdxEntry e).drop 4 =
        leEnc 4 e.md_file_page_offset ++
          (leEnc 4 e.length ++ leEnc 4 e.chksum) := by
      rw [he0]; exact List.drop_left' (leEnc_length 4 _)
    have he8 : (encIdxEntry e).drop 8 =
        leEnc 4 e.length ++ leEnc 4 e.chksum := by
      have : encIdxEntry e =
          (leEnc 4 e.hdf5_page_offset ++ leEnc 4 e.md_file_page_offset) ++
            (leEnc 4 e.length ++ leEnc 4 e.chksum) := by
        rw [he0]; simp [List.append_assoc]
      rw [this]
      exact List.drop_left' (by simp [leEnc_length])
    have he12 : (encIdxEntry e).drop 12 = leEnc 4 e.chksum := by
      have : encIdxEntry e =
          (leEnc 4 e.hdf5_page_offset ++ leEnc 4 e.md_file_page_offset ++
            leEnc 4 e.length) ++ leEnc 4 e.chksum := by
        rw [he0]; simp [List.append_assoc]
      rw [this]
      exact List.drop_left' (by simp [leEnc_length])
    refine ⟨by simp [encIdxEntry, leEnc_length], ?_, ?_, ?_, ?_⟩
    · rw [he0, List.take_left' (leEnc_length 4 _), leVal_leEnc, h256_4]
    · rw [he4, List.take_left' (leEnc_length 4 _), leVal_leEnc, h256_4]
    · rw [he8, List.take_left' (leEnc_length 4 _), leVal_leEnc, h256_4]
    · rw [he12, leVal_leEnc, h256_4]

/-- Witness for C6 at concrete magics (the 4 ASCII bytes of `"MDHD"` and
`"MDID"`), page size 4096, tick 8, and a one-entry index. -/
theorem codec_byte_exact_witness :
    ([77, 68, 72, 68] : List Nat).length = 4 ∧
    ([77, 68, 73, 68] : List Nat).length = 4 ∧
    (encodeHdr (fun _ => 5) [77, 68, 72, 68] 4096 8
      ([⟨100, 7, 4096, 9, none, 0, false, 0, 0,
        false⟩] : List IdxEntry).length).length = 36 ∧
    (encodeIdx (fun _ => 5) [77, 68, 73, 68] 8
      [⟨100, 7, 4096, 9, none, 0, false, 0, 0, false⟩]).length =
      20 + 16 * ([⟨100, 7, 4096, 9, none, 0, false, 0, 0,
        false⟩] : List IdxEntry).length :=
  ⟨by decide, by decide,
    (codec_byte_exact (fun _ => 5) [77, 68, 72, 68] [77, 68, 73, 68]
      4096 8 [⟨100, 7, 4096, 9, none, 0, false, 0, 0, false⟩]
      (by decide) (by decide)).1,
    (codec_byte_exact (fun _ => 5) [77, 68, 72, 68] [77, 68, 73, 68]
      4096 8 [⟨100, 7, 4096, 9, none, 0, false, 0, 0, false⟩]
      (by decide) (by decide)).2.2.2.2.2.2.2.1⟩

/-- **C7.** The index is created with capacity
`N = (md_pages_reserved * page_size − header_size) / entry_size`;
`entries_used` never exceeds the capacity, and inserting into an index
whose `K` slots are all used fails with `ShadowFull`. -/
theorem index_capacity_and_shadow_full (ps mdPagesReserved : Nat)
    (m : MdIndex) (_hm : m.used ≤ m.len) :
    (createIndex ps mdPagesReserved).len =
      (mdPagesReserved * ps - H5FD_MD_HEADER_SIZE) /
        H5FD_MD_INDEX_ENTRY_SIZE ∧
    (createIndex ps mdPagesReserved).used = 0 ∧
    (∀ m', idxInsert m = .ok m' → m'.used ≤ m'.len) ∧
    (m.used = m.len → idxInsert m = .error .shadowFull) := by
  refine ⟨by simp [createIndex, Nat.mul_comm], rfl, ?_, ?_⟩
  · intro m' h
    unfold idxInsert at h
    split at h
    · cases h
      simpa using ‹m.used < m.len›
    · cases h
  · intro hfull
    unfold idxInsert
    simp [hfull]

/-- Witness for C7 at `page_size = 4096`, `md_pages_reserved = 1`:
capacity `K = (4096 - 36) / 16 = 253`, and inserting into an index with
all 253 slots used fails with `ShadowFull`. -/
theorem index_capacity_and_shadow_full_witness :
    (253 : Nat) ≤ 253 ∧
    ((createIndex 4096 1).len = (1 * 4096 - H5FD_MD_HEADER_SIZE) /
        H5FD_MD_INDEX_ENTRY_SIZE ∧
      (createIndex 4096 1).used = 0 ∧
      (∀ m', idxInsert ⟨253, 253⟩ = .ok m' → m'.used ≤ m'.len) ∧
      ((253 : Nat) = 253 → idxInsert ⟨253, 253⟩ = .error .shadowFull)) :=
  ⟨le_refl _, index_capacity_and_shadow_full 4096 1 ⟨253, 253⟩ (le_refl _)⟩

/-- **C8, counterexample.** The claim says the unlink of the shadow file is
still attempted when closing the shadow-file descriptor fails.  In the
code, a failing `HDclose` jumps to `done`, so the unlink is never
attempted: with every step succeeding except `HDclose`, the trace stops at
`closeFd` and contains no `unlink`. -/
theorem close_failure_skips_unlink :
    closeOrFlush true true false true true true true =
      ([.writeIdx, .writeHdr, .closeFd], false) ∧
    COp.unlink ∉ (closeOrFlush true true false true true true true).1 := by
  constructor
  · rfl
  · decide

/-- **C8, amended.** During writer close, the unlink of the shadow file is
attempted exactly when the empty-index write, the header write and the
descriptor close all succeed; a failure of any earlier step (in particular
of `HDclose`) returns without attempting the unlink. -/
theorem close_unlink_iff_earlier_steps_succeed
    (okIdx okHdr okClose okUnlink okMv okUpd : Bool) :
    COp.unlink ∈ (closeOrFlush okIdx okHdr okClose okUnlink okMv okUpd
        true).1 ↔ (okIdx ∧ okHdr ∧ okClose) := by
  revert okIdx okHdr okClose okUnlink okMv okUpd
  decide

/-- **C10.** When the writer or reader end-of-tick routine is invoked with
a null file pointer, it substitutes the file at the head of the EOT queue
without checking that the queue is non-empty; under the precondition that
the queue holds at least one entry the substitution succeeds (the
null-dereference branch is unreachable), while on the empty queue the
dereference of the null head occurs (`none`). -/
theorem eot_null_file_substitution (queue : List EotEntry)
    (hne : queue ≠ []) :
    (∃ e, queue.head? = some e ∧
      resolveEotFile none queue = some e.vfd_swmr_file) ∧
    (∀ x, resolveEotFile (some x) queue = some x) ∧
    resolveEotFile none ([] : List EotEntry) = none := by
  refine ⟨?_, fun _ => rfl, rfl⟩
  cases queue with
  | nil => exact absurd rfl hne
  | cons e rest => exact ⟨e, rfl, rfl⟩

/-- **C3, counterexample.** The claim says the returned value must lie in
`[current_tick, current_tick + max_lag]`, otherwise the call fails with
`OutOfRange`.  But the no-delay return value 0 is below `current_tick`
whenever `current_tick ≥ 1` and the code succeeds anyway (its range check
is guarded by `delay_write_until != 0`): with current tick 5, `max_lag`
3, and page 5 present with `delayed_flush = 0`, the oracle returns
`.ok 0` although `0 ∉ [5, 8]`. -/
theorem delay_write_zero_outside_range :
    delayWrite 5 3 [⟨5, 1, 4096, 0, none, 0, false, 0, 0, false⟩] 5 =
      .ok 0 ∧ ¬(5 ≤ 0 ∧ 0 ≤ 5 + 3) := by
  have hb : bsearch [⟨5, 1, 4096, 0, none, 0, false, 0, 0, false⟩] 5 =
      some ⟨5, 1, 4096, 0, none, 0, false, 0, 0, false⟩ := by
    simp [bsearch, bsearchGo]
  refine ⟨?_, by omega⟩
  simp [delayWrite, hb]

/-- **C3, amended.** For every page queried on a sorted index with
`current_tick ≥ 1`, the delay-write oracle returns `current_tick +
max_lag` if the page is absent; if the page is present with
`delayed_flush ≥ current_tick` it returns `delayed_flush` when that lies
in `[current_tick, current_tick + max_lag]` and fails with `OutOfRange`
otherwise; and if the page is present with `delayed_flush <
current_tick` it returns 0 (no delay) — the range check applies only to
nonzero delay values. -/
theorem delay_write_characterization (tick maxLag : Nat)
    (idx : List IdxEntry) (page : Nat)
    (hsort : idx.Pairwise
      (fun a b => a.hdf5_page_offset < b.hdf5_page_offset))
    (htick : 1 ≤ tick) :
    ((∀ e ∈ idx, e.hdf5_page_offset ≠ page) →
      delayWrite tick maxLag idx page = .ok (tick + maxLag)) ∧
    (∀ e ∈ idx, e.hdf5_page_offset = page →
      ((tick ≤ e.delayed_flush → e.delayed_flush ≤ tick + maxLag →
          delayWrite tick maxLag idx page = .ok e.delayed_flush) ∧
       (tick + maxLag < e.delayed_flush →
          delayWrite tick maxLag idx page = .error .outOfRange) ∧
       (e.delayed_flush < tick →
          delayWrite tick maxLag idx page = .ok 0))) := by
  constructor
  · intro hab
    have hb : bsearch idx page = none := by
      cases hb : bsearch idx page with
      | none => rfl
      | some f =>
        have hs := bsearchGo_sound idx page idx.length 0 idx.length
          (by omega) f hb
        exact absurd hs.2 (hab f hs.1)
    simp only [delayWrite, hb]
    rw [if_neg (by omega)]
  · intro e hmem hoff
    have hbe : bsearch idx page = some e := by
      cases hb : bsearch idx page with
      | none =>
        obtain ⟨i, hget⟩ := List.mem_iff_get.mp hmem
        have hnone := bsearchGo_none idx page hsort idx.length 0
          idx.length (by omega) (le_refl _) hb i.1 i.2 (by omega) i.2
        rw [hget] at hnone
        exact absurd hoff hnone
      | some f =>
        have hs := bsearchGo_sound idx page idx.length 0 idx.length
          (by omega) f hb
        have hfe : f = e := sorted_off_unique idx hsort hs.1 hmem
          (by rw [hs.2, hoff])
        rw [hfe]
    refine ⟨?_, ?_, ?_⟩
    · intro h1 h2
      simp only [delayWrite, hbe]
      rw [if_pos h1, if_neg (by omega)]
    · intro h1
      have h2 : tick ≤ e.delayed_flush := by omega
      simp only [delayWrite, hbe]
      rw [if_pos h2, if_pos (by omega)]
    · intro h1
      have h2 : ¬(tick ≤ e.delayed_flush) := by omega
      simp only [delayWrite, hbe]
      rw [if_neg h2, if_neg (by omega)]

/-- Witness for C3's amended theorem: a two-entry sorted index, current
tick 10, `max_lag` 3, querying present page 9 with `delayed_flush = 12 ∈
[10, 13]` — the oracle returns `.ok 12`. -/
theorem delay_write_characterization_witness :
    delayWrite 10 3 [⟨4, 1, 4096, 0, none, 0, false, 0, 0, false⟩,
      ⟨9, 2, 4096, 0, none, 0, false, 0, 12, false⟩] 9 = .ok 12 :=
  ((delay_write_characterization 10 3
      [⟨4, 1, 4096, 0, none, 0, false, 0, 0, false⟩,
       ⟨9, 2, 4096, 0, none, 0, false, 0, 12, false⟩] 9
      (by decide) (by decide)).2
    ⟨9, 2, 4096, 0, none, 0, false, 0, 12, false⟩
    (by decide) rfl).1 (by decide) (by decide)

/-- **C4, divergence.** The claim (matching the macro's own "insert an
entry after the predecessor" documentation) says inserting deadlines 100,
200, 150 yields queue order 100, 150, 200.  On the third insert the
tail-first walk stops at the head entry (deadline 100 ≤ 150), and the
`prec_ptr->prev == NULL` branch of `H5F_EOT_INSERT_AFTER` **appends** the
new entry at the tail: the code yields 100, 200, 150, which is not sorted
by deadline. -/
theorem eot_insert_after_head_appends :
    insertEntryEot ⟨true, 1, (100, 0), 1⟩ [] =
      some [⟨true, 1, (100, 0), 1⟩] ∧
    insertEntryEot ⟨true, 1, (200, 0), 2⟩ [⟨true, 1, (100, 0), 1⟩] =
      some [⟨true, 1, (100, 0), 1⟩, ⟨true, 1, (200, 0), 2⟩] ∧
    insertEntryEot ⟨true, 1, (150, 0), 3⟩
        [⟨true, 1, (100, 0), 1⟩, ⟨true, 1, (200, 0), 2⟩] =
      some [⟨true, 1, (100, 0), 1⟩, ⟨true, 1, (200, 0), 2⟩,
        ⟨true, 1, (150, 0), 3⟩] ∧
    ¬ List.Pairwise
        (fun a b : EotEntry => a.end_of_tick.1 ≤ b.end_of_tick.1)
        [⟨true, 1, (100, 0), 1⟩, ⟨true, 1, (200, 0), 2⟩,
          ⟨true, 1, (150, 0), 3⟩] := by
  refine ⟨by decide, by decide, by decide, by decide⟩

/-- Closed form of the freedspace cache-iteration loop: the children
linked are exactly the qualifying entries, in cache-iteration order, and
a freedspace object exists at the end iff one existed at the start or
some entry qualifies. -/
theorem freedspaceIterate_eq (a : MemType) (r ad : Nat) :
    ∀ (es : List CEntry) (acc : Option (List Nat)),
      freedspaceIterate a r ad es acc =
        if es.filter (freedspaceQualifies a r ad) = [] then acc
        else some (acc.getD [] ++
          (es.filter (freedspaceQualifies a r ad)).map (·.addr)) := by
  intro es
  induction es with
  | nil => intro acc; simp [freedspaceIterate]
  | cons e es ih =>
    intro acc
    by_cases hq : freedspaceQualifies a r ad e
    · rw [freedspaceIterate, if_pos hq, ih, List.filter_cons_of_pos hq]
      by_cases hf : es.filter (freedspaceQualifies a r ad) = []
      · simp [hf]
      · simp [hf, List.append_assoc]
    · rw [freedspaceIterate, if_neg hq, ih,
        List.filter_cons_of_neg (by simpa using hq)]

/-- **C9, counterexample.** The claim says that whenever the metadata
cache is not clean a freedspace object is created.  If the only dirty
entry is the freed entry itself, the cache is not clean yet the iteration
links nothing and no freedspace object is created. -/
theorem freedspace_dirty_cache_without_object :
    cacheIsClean [⟨7, true, 0, AcType.ohdr⟩] = false ∧
    freedspaceCreate (MemType.notDraw 0) 0 [⟨7, true, 0, AcType.ohdr⟩] 7 =
      none := by
  constructor
  · decide
  · decide

/-- **C9, amended.** On a primary-file free request: if the cache is clean
nothing is created and the free proceeds immediately; otherwise the
freedspace object is created lazily upon the first qualifying entry — it
exists iff some cache entry is dirty, not the freed entry itself, in a
ring ≤ the freed entry's ring, and of an eligible type — and its
flush-dependency children are exactly the qualifying entries. -/
theorem freedspace_create_characterization (a : MemType) (r addr : Nat)
    (entries : List CEntry) :
    (cacheIsClean entries = true →
      freedspaceCreate a r entries addr = none) ∧
    ((freedspaceCreate a r entries addr).isSome ↔
      cacheIsClean entries = false ∧
        ∃ e ∈ entries, freedspaceQualifies a r addr e = true) ∧
    (∀ cs, freedspaceCreate a r entries addr = some cs →
      cs = (entries.filter (freedspaceQualifies a r addr)).map (·.addr)) := by
  refine ⟨fun h => by simp [freedspaceCreate, h], ?_, ?_⟩
  · by_cases hc : cacheIsClean entries
    · simp [freedspaceCreate, hc]
    · rw [freedspaceCreate, if_neg hc, freedspaceIterate_eq]
      by_cases hf : entries.filter (freedspaceQualifies a r addr) = []
      · rw [if_pos hf]
        constructor
        · intro h; simp at h
        · rintro ⟨-, e, he, hq⟩
          have h2 := List.filter_eq_nil_iff.mp hf e he
          exact absurd hq (by simpa using h2)
      · rw [if_neg hf]
        simp only [Option.isSome_some, true_iff]
        refine ⟨Bool.eq_false_iff.mpr hc, ?_⟩
        obtain ⟨e, he⟩ := List.exists_mem_of_ne_nil _ hf
        exact ⟨e, (List.mem_filter.mp he).1, (List.mem_filter.mp he).2⟩
  · intro cs h
    by_cases hc : cacheIsClean entries
    · simp [freedspaceCreate, hc] at h
    · rw [freedspaceCreate, if_neg hc, freedspaceIterate_eq] at h
      by_cases hf : entries.filter (freedspaceQualifies a r addr) = []
      · simp [hf] at h
      · rw [if_neg hf] at h
        simpa using h.symm

/-- Witness for C9's amended theorem: one dirty object header in ring 0,
freed address 3 ≠ 1 — the freedspace object is created with that single
entry as its child. -/
theorem freedspace_create_characterization_witness :
    (cacheIsClean [⟨1, true, 0, AcType.ohdr⟩] = true →
      freedspaceCreate (MemType.notDraw 0) 0 [⟨1, true, 0, AcType.ohdr⟩] 3 =
        none) ∧
    ((freedspaceCreate (MemType.notDraw 0) 0 [⟨1, true, 0, AcType.ohdr⟩]
        3).isSome ↔
      cacheIsClean [⟨1, true, 0, AcType.ohdr⟩] = false ∧
        ∃ e ∈ [(⟨1, true, 0, AcType.ohdr⟩ : CEntry)],
          freedspaceQualifies (MemType.notDraw 0) 0 3 e = true) ∧
    (∀ cs, freedspaceCreate (MemType.notDraw 0) 0
        [⟨1, true, 0, AcType.ohdr⟩] 3 = some cs →
      cs = (([⟨1, true, 0, AcType.ohdr⟩] : List CEntry).filter
        (freedspaceQualifies (MemType.notDraw 0) 0 3)).map (·.addr)) :=
  freedspace_create_characterization (MemType.notDraw 0) 0 3
    [⟨1, true, 0, AcType.ohdr⟩]

/-- Witness for C10 on a one-entry queue. -/
theorem eot_null_file_substitution_witness :
    ([⟨true, 1, (0, 0), 42⟩] : List EotEntry) ≠ [] ∧
    ((∃ e, ([⟨true, 1, (0, 0), 42⟩] : List EotEntry).head? = some e ∧
        resolveEotFile none [⟨true, 1, (0, 0), 42⟩] =
          some e.vfd_swmr_file) ∧
      (∀ x, resolveEotFile (some x) [⟨true, 1, (0, 0), 42⟩] = some x) ∧
      resolveEotFile none ([] : List EotEntry) = none) :=
  ⟨by decide, eot_null_file_substitution _ (by decide)⟩

end VfdSwmr
